import Mathlib

/-!
A verification development for vice's window-manager ("wm") module: the
kd-tree of display panes (`DisplayNode`), the per-frame keyboard-focus
routing, and the F-key command console (`StatusBar`).

Pointers in the original Go code are rendered as follows: a nullable
`*DisplayNode` becomes `Option DisplayNode`; a pointer INTO the tree (the
result of `NodeForPane` / `ParentNodeForPane`) becomes a path from the root
(`List Bool`, `false` = `Children[0]`, `true` = `Children[1]`), and a
mutation through such a pointer becomes a functional rewrite at that path.
An operation that the Go code would abort with a nil-pointer dereference
(a panic) is modelled as returning `none`.

Pane interface values are identified by reference; we model a pane handle
as a record carrying an identity and the two capabilities the wm code
queries (`CanTakeKeyboardFocus`, and whether the dynamic type is
`*CLIPane`).  `float32` split positions are carried as `Rat`; the wm code
only stores and copies them (the constants involved, 0 and 0.5, are exact
in `float32`).
-/

namespace Vice

/-- `SplitType` from wm.go: `SplitAxisNone | SplitAxisX | SplitAxisY`. -/
inductive SplitType where
  | splitAxisNone
  | splitAxisX
  | splitAxisY
deriving DecidableEq, Repr

/-- A pane handle: Go interface identity plus the capabilities the window
manager inspects (`CanTakeKeyboardFocus()` and the `*CLIPane` type test). -/
structure Pane where
  id : Nat
  isCLIPane : Bool
  canTakeKeyboardFocus : Bool
deriving DecidableEq, Repr

/-- `SplitLine` from wm.go: offset in `[0,1]` and an axis. -/
structure SplitLine where
  Pos : Rat
  Axis : SplitType
deriving DecidableEq, Repr

/-- `DisplayNode` from wm.go: `Pane` is non-nil only for leaf nodes
(iff `SplitLine.Axis == SplitAxisNone`); `Children` are non-nil only for
interior nodes. The Go struct's nullable child pointers are `Option`s. -/
inductive DisplayNode where
  | mk (Pane : Option Pane) (SplitLine : SplitLine) (c0 c1 : Option DisplayNode)

namespace DisplayNode

/-- The `Pane` field of a node. -/
def PaneOf : DisplayNode → Option Pane
  | .mk p _ _ _ => p

/-- The `SplitLine` field of a node. -/
def SplitLineOf : DisplayNode → SplitLine
  | .mk _ sl _ _ => sl

/-- `d.Children[i]`: index 0 is the first child, anything else the second
(callers only ever pass 0 or 1). -/
def Child : DisplayNode → Nat → Option DisplayNode
  | .mk _ _ c0 _, 0 => c0
  | .mk _ _ _ c1, _ => c1

end DisplayNode

/-- A leaf node as the Go code builds them: `&DisplayNode{Pane: p}`; the
`SplitLine` is zero-valued (`Pos` 0, `Axis` `SplitAxisNone`), children nil. -/
def leafNode (p : Pane) : DisplayNode :=
  .mk (some p) ⟨0, .splitAxisNone⟩ none none

/-- The structural invariant on the display hierarchy: every node is either
a leaf (`Pane` non-nil, axis `SplitAxisNone`, no children) or an interior
node (`Pane` nil, axis not `SplitAxisNone`, two non-nil well-formed
children) — never both, never neither. -/
def wfNode : DisplayNode → Bool
  | .mk p sl c0 c1 =>
    if sl.Axis = .splitAxisNone then
      p.isSome && c0.isNone && c1.isNone
    else
      p.isNone &&
        (match c0 with | none => false | some d0 => wfNode d0) &&
        (match c1 with | none => false | some d1 => wfNode d1)

/-- Number of leaf nodes in the hierarchy. -/
def numLeaves : DisplayNode → Nat
  | .mk _ sl c0 c1 =>
    if sl.Axis = .splitAxisNone then 1
    else (match c0 with | none => 0 | some d0 => numLeaves d0) +
         (match c1 with | none => 0 | some d1 => numLeaves d1)

/-- Whether some node of the hierarchy stores the given pane. -/
def paneInTree (pane : Pane) : DisplayNode → Bool
  | .mk p _ c0 c1 =>
    p = some pane ||
      (match c0 with | none => false | some d0 => paneInTree pane d0) ||
      (match c1 with | none => false | some d1 => paneInTree pane d1)

/-!
### Paths into the tree

A Go pointer to a node inside the hierarchy is rendered as the path of
child choices from the root: `false` selects `Children[0]`, `true`
selects `Children[1]`.
-/

/-- The node reached by following `path` from `d`; `none` when the path
runs through a nil child pointer. -/
def subtreeAt : DisplayNode → List Bool → Option DisplayNode
  | d, [] => some d
  | .mk _ _ c0 c1, b :: rest =>
    match (if b then c1 else c0) with
    | none => none
    | some c => subtreeAt c rest

/-- Replace the node reached by `path` with `r` (the functional rendering
of assigning `*node = r` through a pointer obtained by a search); `none`
when the path runs through a nil child pointer. -/
def replaceAt : DisplayNode → List Bool → DisplayNode → Option DisplayNode
  | _, [], r => some r
  | .mk p sl c0 c1, b :: rest, r =>
    if b then
      match c1 with
      | none => none
      | some c => (replaceAt c rest r).map fun c' => .mk p sl c0 (some c')
    else
      match c0 with
      | none => none
      | some c => (replaceAt c rest r).map fun c' => .mk p sl (some c') c1

/-- Overwrite just the `Pane` field of the node reached by `path` (the
functional rendering of `node.Pane = q`). -/
def setPaneAt (d : DisplayNode) (path : List Bool) (q : Option Pane) :
    Option DisplayNode :=
  match subtreeAt d path with
  | none => none
  | some (.mk _ sl c0 c1) => replaceAt d path (.mk q sl c0 c1)

/-!
### Searches

`NodeForPane` and `ParentNodeForPane` from wm.go return pointers into the
hierarchy; here they return the path to the found node (and, for the
parent search, the child index, 0 or 1).
-/

/-- `DisplayNode.NodeForPane`: depth-first search for the node storing
`pane`.  Returns the path to the first hit in the source's search order:
the current node, then (unless `Children[0]` is nil, which the source
treats as "leaf, not found") the left subtree, then the right subtree.
When `Children[0]` is non-nil but `Children[1]` is nil the source would
dereference a nil receiver; that malformed case is folded into `none`. -/
def NodeForPane (pane : Pane) : DisplayNode → Option (List Bool)
  | .mk p _ c0 c1 =>
    if p = some pane then some []
    else
      match c0 with
      | none => none
      | some d0 =>
        Option.or ((NodeForPane pane d0).map fun path => false :: path)
          (match c1 with
           | none => none
           | some d1 => (NodeForPane pane d1).map fun path => true :: path)

/-- Whether an optional child node directly stores `pane`
(`d.Children[i] != nil && d.Children[i].Pane == pane`). -/
def childPaneIs (c : Option DisplayNode) (pane : Pane) : Bool :=
  match c with
  | none => false
  | some d => d.PaneOf = some pane

/-- `DisplayNode.ParentNodeForPane`: returns the path to the node one
level above the node storing `pane`, together with the child index that
leads to it.  The nil receiver returns `(nil, -1)` in the source, i.e.
`none` here; each node first tests both its immediate children, then
recurses left, then right. -/
def ParentNodeForPane (pane : Pane) : Option DisplayNode → Option (List Bool × Nat)
  | none => none
  | some (.mk _ _ c0 c1) =>
    if childPaneIs c0 pane then some ([], 0)
    else if childPaneIs c1 pane then some ([], 1)
    else
      match ParentNodeForPane pane c0 with
      | some (path, idx) => some (false :: path, idx)
      | none => (ParentNodeForPane pane c1).map fun r => (true :: r.1, r.2)

/-!
### Structural lemmas about well-formedness, paths and replacement
-/

theorem wfNode_leaf_fields {p : Option Pane} {sl : SplitLine}
    {c0 c1 : Option DisplayNode}
    (hwf : wfNode (.mk p sl c0 c1) = true) (hax : sl.Axis = .splitAxisNone) :
    p.isSome = true ∧ c0 = none ∧ c1 = none := by
  unfold wfNode at hwf
  rw [hax] at hwf
  simp only [if_true, eq_self_iff_true, if_pos, Bool.and_eq_true] at hwf
  exact ⟨hwf.1.1, Option.isNone_iff_eq_none.mp hwf.1.2,
    Option.isNone_iff_eq_none.mp hwf.2⟩

theorem wfNode_interior_fields {p : Option Pane} {sl : SplitLine}
    {c0 c1 : Option DisplayNode}
    (hwf : wfNode (.mk p sl c0 c1) = true) (hax : ¬sl.Axis = .splitAxisNone) :
    p = none ∧ ∃ d0 d1, c0 = some d0 ∧ c1 = some d1 ∧
      wfNode d0 = true ∧ wfNode d1 = true := by
  unfold wfNode at hwf
  rw [if_neg hax] at hwf
  simp only [Bool.and_eq_true] at hwf
  obtain ⟨⟨hp, h0⟩, h1⟩ := hwf
  refine ⟨Option.isNone_iff_eq_none.mp hp, ?_⟩
  cases c0 with
  | none => simp at h0
  | some d0 =>
    cases c1 with
    | none => simp at h1
    | some d1 => exact ⟨d0, d1, rfl, rfl, h0, h1⟩

/-- A well-formed node with a non-nil child is interior. -/
theorem wfNode_axis_of_child {p : Option Pane} {sl : SplitLine}
    {c0 c1 : Option DisplayNode} {b : Bool} {c : DisplayNode}
    (hwf : wfNode (.mk p sl c0 c1) = true)
    (hb : (if b then c1 else c0) = some c) : ¬sl.Axis = .splitAxisNone := by
  intro hax
  obtain ⟨-, h0, h1⟩ := wfNode_leaf_fields hwf hax
  cases b <;> simp_all

/-- A well-formed node storing a pane is a leaf. -/
theorem wfNode_axis_of_pane {p : Option Pane} {sl : SplitLine}
    {c0 c1 : Option DisplayNode} {q : Pane}
    (hwf : wfNode (.mk p sl c0 c1) = true) (hp : p = some q) :
    sl.Axis = .splitAxisNone := by
  by_contra hax
  obtain ⟨hnone, -⟩ := wfNode_interior_fields hwf hax
  simp [hnone] at hp

theorem wfNode_child {p : Option Pane} {sl : SplitLine}
    {c0 c1 : Option DisplayNode} {b : Bool} {c : DisplayNode}
    (hwf : wfNode (.mk p sl c0 c1) = true)
    (hb : (if b then c1 else c0) = some c) : wfNode c = true := by
  have hax := wfNode_axis_of_child hwf hb
  obtain ⟨-, d0, d1, h0, h1, hw0, hw1⟩ := wfNode_interior_fields hwf hax
  cases b <;> simp_all

theorem numLeaves_mk_interior (pn : Option Pane) (sl : SplitLine)
    (d0 d1 : DisplayNode) (hax : ¬sl.Axis = .splitAxisNone) :
    numLeaves (.mk pn sl (some d0) (some d1)) = numLeaves d0 + numLeaves d1 := by
  conv_lhs => unfold numLeaves
  simp [hax]

theorem wfNode_mk_interior (sl : SplitLine) (d0 d1 : DisplayNode)
    (hax : ¬sl.Axis = .splitAxisNone)
    (h0 : wfNode d0 = true) (h1 : wfNode d1 = true) :
    wfNode (.mk none sl (some d0) (some d1)) = true := by
  conv_lhs => unfold wfNode
  simp [hax, h0, h1]

theorem wfNode_subtreeAt {t u : DisplayNode} {path : List Bool}
    (hwf : wfNode t = true) (h : subtreeAt t path = some u) :
    wfNode u = true := by
  induction path generalizing t with
  | nil => simp only [subtreeAt, Option.some.injEq] at h; exact h ▸ hwf
  | cons b rest ih =>
    cases t with
    | mk p sl c0 c1 =>
      simp only [subtreeAt] at h
      cases hb : (if b then c1 else c0) with
      | none => rw [hb] at h; simp at h
      | some c =>
        rw [hb] at h
        exact ih (wfNode_child hwf hb) h

theorem subtreeAt_append (t : DisplayNode) (p q : List Bool) :
    subtreeAt t (p ++ q) = (subtreeAt t p).bind (fun u => subtreeAt u q) := by
  induction p generalizing t with
  | nil => simp [subtreeAt]
  | cons b rest ih =>
    cases t with
    | mk pn sl c0 c1 =>
      simp only [List.cons_append, subtreeAt]
      cases hb : (if b then c1 else c0) with
      | none => simp
      | some c => simp [ih c]

/-- Following any step from a node with no children fails. -/
theorem subtreeAt_cons_of_leaf {pn : Option Pane} {sl : SplitLine}
    (b : Bool) (rest : List Bool) :
    subtreeAt (.mk pn sl none none) (b :: rest) = none := by
  cases b <;> simp [subtreeAt]

theorem subtreeAt_replaceAt_self {path : List Bool} {t r t' : DisplayNode}
    (h : replaceAt t path r = some t') : subtreeAt t' path = some r := by
  induction path generalizing t t' with
  | nil =>
    unfold replaceAt at h
    simp only [Option.some.injEq] at h
    simp [← h, subtreeAt]
  | cons b rest ih =>
    cases t with
    | mk pn sl c0 c1 =>
      unfold replaceAt at h
      cases b with
      | false =>
        simp only [Bool.false_eq_true, if_false] at h
        cases hc : c0 with
        | none => rw [hc] at h; simp at h
        | some c =>
          rw [hc] at h
          simp only [Option.map_eq_some'] at h
          obtain ⟨c', hc', ht'⟩ := h
          subst ht'
          unfold subtreeAt
          simpa using ih hc'
      | true =>
        simp only [if_true] at h
        cases hc : c1 with
        | none => rw [hc] at h; simp at h
        | some c =>
          rw [hc] at h
          simp only [Option.map_eq_some'] at h
          obtain ⟨c', hc', ht'⟩ := h
          subst ht'
          unfold subtreeAt
          simpa using ih hc'

theorem replaceAt_isSome {path : List Bool} {t u : DisplayNode}
    (r : DisplayNode) (h : subtreeAt t path = some u) :
    ∃ t', replaceAt t path r = some t' := by
  induction path generalizing t with
  | nil => exact ⟨r, by cases t with | mk pn sl c0 c1 => unfold replaceAt; rfl⟩
  | cons b rest ih =>
    cases t with
    | mk pn sl c0 c1 =>
      unfold subtreeAt at h
      cases hb : (if b then c1 else c0) with
      | none => rw [hb] at h; simp at h
      | some c =>
        rw [hb] at h
        obtain ⟨c', hc'⟩ := ih h
        cases b with
        | false =>
          simp only [Bool.false_eq_true, if_false] at hb
          exact ⟨.mk pn sl (some c') c1, by unfold replaceAt; simp [hb, hc']⟩
        | true =>
          simp only [if_true] at hb
          exact ⟨.mk pn sl c0 (some c'), by unfold replaceAt; simp [hb, hc']⟩

theorem subtreeAt_of_replaceAt {path : List Bool} {t r t' : DisplayNode}
    (h : replaceAt t path r = some t') : ∃ u, subtreeAt t path = some u := by
  induction path generalizing t t' with
  | nil => exact ⟨t, by cases t with | mk pn sl c0 c1 => unfold subtreeAt; rfl⟩
  | cons b rest ih =>
    cases t with
    | mk pn sl c0 c1 =>
      unfold replaceAt at h
      cases b with
      | false =>
        simp only [Bool.false_eq_true, if_false] at h
        cases hc : c0 with
        | none => rw [hc] at h; simp at h
        | some c =>
          rw [hc] at h
          simp only [Option.map_eq_some'] at h
          obtain ⟨c', hc', -⟩ := h
          obtain ⟨u, hu⟩ := ih hc'
          exact ⟨u, by unfold subtreeAt; simp [hc, hu]⟩
      | true =>
        simp only [if_true] at h
        cases hc : c1 with
        | none => rw [hc] at h; simp at h
        | some c =>
          rw [hc] at h
          simp only [Option.map_eq_some'] at h
          obtain ⟨c', hc', -⟩ := h
          obtain ⟨u, hu⟩ := ih hc'
          exact ⟨u, by unfold subtreeAt; simp [hc, hu]⟩

/-- Replacing a well-formed subtree by a well-formed tree keeps the whole
hierarchy well-formed. -/
theorem wfNode_replaceAt {path : List Bool} {t r t' : DisplayNode}
    (hwf : wfNode t = true) (hr : wfNode r = true)
    (h : replaceAt t path r = some t') : wfNode t' = true := by
  induction path generalizing t t' with
  | nil =>
    unfold replaceAt at h
    simp only [Option.some.injEq] at h
    exact h ▸ hr
  | cons b rest ih =>
    cases t with
    | mk pn sl c0 c1 =>
      unfold replaceAt at h
      have hint : ¬sl.Axis = .splitAxisNone := by
        intro hax
        obtain ⟨-, h0, h1⟩ := wfNode_leaf_fields hwf hax
        subst h0; subst h1
        cases b <;> simp at h
      obtain ⟨hp, d0, d1, h0, h1, hw0, hw1⟩ := wfNode_interior_fields hwf hint
      subst hp; subst h0; subst h1
      cases b with
      | false =>
        simp only [Bool.false_eq_true, if_false, Option.map_eq_some'] at h
        obtain ⟨c', hc', ht'⟩ := h
        subst ht'
        have := ih hw0 hc'
        unfold wfNode
        simp [hint, this, hw1]
      | true =>
        simp only [if_true, Option.map_eq_some'] at h
        obtain ⟨c', hc', ht'⟩ := h
        subst ht'
        have := ih hw1 hc'
        unfold wfNode
        simp [hint, this, hw0]

/-- How a replacement changes the total leaf count (on well-formed
hierarchies): the old target's leaves are swapped for the replacement's. -/
theorem numLeaves_replaceAt {path : List Bool} {t u r t' : DisplayNode}
    (hwf : wfNode t = true)
    (hu : subtreeAt t path = some u) (h : replaceAt t path r = some t') :
    numLeaves t' + numLeaves u = numLeaves t + numLeaves r := by
  induction path generalizing t t' with
  | nil =>
    unfold subtreeAt at hu
    unfold replaceAt at h
    simp only [Option.some.injEq] at hu h
    subst hu; subst h
    omega
  | cons b rest ih =>
    cases t with
    | mk pn sl c0 c1 =>
      unfold replaceAt at h
      have hint : ¬sl.Axis = .splitAxisNone := by
        intro hax
        obtain ⟨-, h0, h1⟩ := wfNode_leaf_fields hwf hax
        subst h0; subst h1
        cases b <;> simp at h
      obtain ⟨hp, d0, d1, h0, h1, hw0, hw1⟩ := wfNode_interior_fields hwf hint
      subst hp; subst h0; subst h1
      cases b with
      | false =>
        simp only [Bool.false_eq_true, if_false, Option.map_eq_some'] at h
        obtain ⟨c', hc', ht'⟩ := h
        subst ht'
        unfold subtreeAt at hu
        simp only [Bool.false_eq_true, if_false] at hu
        have hrec := ih hw0 hu hc'
        rw [numLeaves_mk_interior _ _ _ _ hint, numLeaves_mk_interior _ _ _ _ hint]
        omega
      | true =>
        simp only [if_true, Option.map_eq_some'] at h
        obtain ⟨c', hc', ht'⟩ := h
        subst ht'
        unfold subtreeAt at hu
        simp only [if_true] at hu
        have hrec := ih hw1 hu hc'
        rw [numLeaves_mk_interior _ _ _ _ hint, numLeaves_mk_interior _ _ _ _ hint]
        omega

/-- Replacement at one path does not disturb the subtree found at a
different path, provided both paths address nodes of the tree and the
replaced node is childless (so neither path can pass through the other). -/
theorem subtreeAt_replaceAt_of_ne {p q : List Bool} {t r t' : DisplayNode}
    (hne : p ≠ q)
    (ht : replaceAt t p r = some t')
    (hpleaf : ∀ b rest, subtreeAt t (p ++ b :: rest) = none)
    (hqleaf : ∀ b rest, subtreeAt t (q ++ b :: rest) = none)
    (hqv : (subtreeAt t q).isSome = true) :
    subtreeAt t' q = subtreeAt t q := by
  induction p generalizing q t t' with
  | nil =>
    cases q with
    | nil => exact absurd rfl hne
    | cons b rest =>
      have := hpleaf b rest
      simp only [List.nil_append] at this
      rw [this] at hqv
      simp at hqv
  | cons b p' ih =>
    cases t with
    | mk pn sl c0 c1 =>
      cases q with
      | nil =>
        obtain ⟨w, hw⟩ := subtreeAt_of_replaceAt ht
        have hq := hqleaf b p'
        simp only [List.nil_append] at hq
        have : subtreeAt (DisplayNode.mk pn sl c0 c1) (b :: p') = none := hq
        obtain ⟨u, hu⟩ := subtreeAt_of_replaceAt ht
        rw [hu] at this
        cases this
      | cons b' q' =>
        unfold replaceAt at ht
        by_cases hbb : b' = b
        · subst hbb
          cases b' with
          | false =>
            simp only [Bool.false_eq_true, if_false, Option.map_eq_some'] at ht
            cases hc : c0 with
            | none => rw [hc] at ht; simp at ht
            | some c =>
              rw [hc] at ht
              simp only [Option.map_eq_some'] at ht
              obtain ⟨c', hc', ht'⟩ := ht
              subst ht'
              have hne' : p' ≠ q' := fun hh => hne (by rw [hh])
              have hple : ∀ bb rest, subtreeAt c (p' ++ bb :: rest) = none := by
                intro bb rest
                have := hpleaf bb rest
                simp only [List.cons_append] at this
                unfold subtreeAt at this
                simpa [hc] using this
              have hqle : ∀ bb rest, subtreeAt c (q' ++ bb :: rest) = none := by
                intro bb rest
                have := hqleaf bb rest
                simp only [List.cons_append] at this
                unfold subtreeAt at this
                simpa [hc] using this
              have hqv' : (subtreeAt c q').isSome = true := by
                unfold subtreeAt at hqv
                simpa [hc] using hqv
              have := ih hne' hc' hple hqle hqv'
              unfold subtreeAt
              simpa [hc] using this
          | true =>
            simp only [if_true] at ht
            cases hc : c1 with
            | none => rw [hc] at ht; simp at ht
            | some c =>
              rw [hc] at ht
              simp only [Option.map_eq_some'] at ht
              obtain ⟨c', hc', ht'⟩ := ht
              subst ht'
              have hne' : p' ≠ q' := fun hh => hne (by rw [hh])
              have hple : ∀ bb rest, subtreeAt c (p' ++ bb :: rest) = none := by
                intro bb rest
                have := hpleaf bb rest
                simp only [List.cons_append] at this
                unfold subtreeAt at this
                simpa [hc] using this
              have hqle : ∀ bb rest, subtreeAt c (q' ++ bb :: rest) = none := by
                intro bb rest
                have := hqleaf bb rest
                simp only [List.cons_append] at this
                unfold subtreeAt at this
                simpa [hc] using this
              have hqv' : (subtreeAt c q').isSome = true := by
                unfold subtreeAt at hqv
                simpa [hc] using hqv
              have := ih hne' hc' hple hqle hqv'
              unfold subtreeAt
              simpa [hc] using this
        · -- the two paths branch to different children here; the replaced
          -- child is not the one `q` goes through
          cases b with
          | false =>
            simp only [Bool.false_eq_true, if_false, Option.map_eq_some'] at ht
            cases hc : c0 with
            | none => rw [hc] at ht; simp at ht
            | some c =>
              rw [hc] at ht
              simp only [Option.map_eq_some'] at ht
              obtain ⟨c', hc', ht'⟩ := ht
              subst ht'
              have hb' : b' = true := by
                cases b' with
                | false => exact absurd rfl hbb
                | true => rfl
              subst hb'
              unfold subtreeAt
              simp
          | true =>
            simp only [if_true] at ht
            cases hc : c1 with
            | none => rw [hc] at ht; simp at ht
            | some c =>
              rw [hc] at ht
              simp only [Option.map_eq_some'] at ht
              obtain ⟨c', hc', ht'⟩ := ht
              subst ht'
              have hb' : b' = false := by
                cases b' with
                | false => rfl
                | true => exact absurd rfl hbb
              subst hb'
              unfold subtreeAt
              simp

/-!
### Correctness of the searches
-/

theorem childPaneIs_eq_true {c : Option DisplayNode} {pane : Pane}
    (h : childPaneIs c pane = true) :
    ∃ d, c = some d ∧ d.PaneOf = some pane := by
  cases c with
  | none => simp [childPaneIs] at h
  | some d =>
    refine ⟨d, rfl, ?_⟩
    simpa [childPaneIs] using h

theorem NodeForPane_correct (pane : Pane) :
    (t : DisplayNode) → (path : List Bool) → NodeForPane pane t = some path →
      ∃ u, subtreeAt t path = some u ∧ u.PaneOf = some pane
  | .mk p sl c0 c1, path, h => by
    unfold NodeForPane at h
    by_cases hp : p = some pane
    · rw [if_pos hp] at h
      simp only [Option.some.injEq] at h
      subst h
      exact ⟨.mk p sl c0 c1, by unfold subtreeAt; rfl, by simpa [DisplayNode.PaneOf]⟩
    · rw [if_neg hp] at h
      cases hc0 : c0 with
      | none => rw [hc0] at h; cases h
      | some d0 =>
        rw [hc0] at h
        dsimp only at h
        cases hrec : NodeForPane pane d0 with
        | some p0 =>
          rw [hrec] at h
          simp only [Option.map_some', Option.or_some, Option.some.injEq] at h
          subst h
          obtain ⟨u, hu, hpu⟩ := NodeForPane_correct pane d0 p0 hrec
          exact ⟨u, by unfold subtreeAt; simp [hc0, hu], hpu⟩
        | none =>
          rw [hrec] at h
          simp only [Option.map_none', Option.none_or] at h
          cases hc1 : c1 with
          | none => rw [hc1] at h; cases h
          | some d1 =>
            rw [hc1] at h
            simp only [Option.map_eq_some'] at h
            obtain ⟨p1, hp1, hpath⟩ := h
            subst hpath
            obtain ⟨u, hu, hpu⟩ := NodeForPane_correct pane d1 p1 hp1
            exact ⟨u, by unfold subtreeAt; simp [hc1, hu], hpu⟩

theorem ParentNodeForPane_correct (pane : Pane) :
    (t : DisplayNode) → (path : List Bool) → (idx : Nat) →
    ParentNodeForPane pane (some t) = some (path, idx) →
      idx ≤ 1 ∧ ∃ u, subtreeAt t path = some u ∧
        ∃ c, u.Child idx = some c ∧ c.PaneOf = some pane
  | .mk p sl c0 c1, path, idx, h => by
    unfold ParentNodeForPane at h
    by_cases h0 : childPaneIs c0 pane = true
    · rw [if_pos h0] at h
      simp only [Option.some.injEq, Prod.mk.injEq] at h
      obtain ⟨hpath, hidx⟩ := h
      subst hpath; subst hidx
      obtain ⟨d, hd, hpd⟩ := childPaneIs_eq_true h0
      exact ⟨by omega, .mk p sl c0 c1, by unfold subtreeAt; rfl,
        d, by simpa [DisplayNode.Child] using hd, hpd⟩
    · rw [if_neg h0] at h
      by_cases h1 : childPaneIs c1 pane = true
      · rw [if_pos h1] at h
        simp only [Option.some.injEq, Prod.mk.injEq] at h
        obtain ⟨hpath, hidx⟩ := h
        subst hpath; subst hidx
        obtain ⟨d, hd, hpd⟩ := childPaneIs_eq_true h1
        exact ⟨by omega, .mk p sl c0 c1, by unfold subtreeAt; rfl,
          d, by simpa [DisplayNode.Child] using hd, hpd⟩
      · rw [if_neg h1] at h
        cases hc0 : ParentNodeForPane pane c0 with
        | some r0 =>
          rw [hc0] at h
          simp only [Option.some.injEq, Prod.mk.injEq] at h
          obtain ⟨hpath, hidx⟩ := h
          cases c0 with
          | none => unfold ParentNodeForPane at hc0; cases hc0
          | some d0 =>
            obtain ⟨hle, u, hu, c, hc, hpc⟩ :=
              ParentNodeForPane_correct pane d0 r0.1 r0.2 (by rw [hc0])
            subst hpath; subst hidx
            exact ⟨hle, u, by unfold subtreeAt; simp [hu], c, hc, hpc⟩
        | none =>
          rw [hc0] at h
          simp only [Option.map_eq_some'] at h
          obtain ⟨r1, hr1, hpath⟩ := h
          cases c1 with
          | none => unfold ParentNodeForPane at hr1; cases hr1
          | some d1 =>
            obtain ⟨hle, u, hu, c, hc, hpc⟩ :=
              ParentNodeForPane_correct pane d1 r1.1 r1.2 (by rw [hr1])
            simp only [Prod.mk.injEq] at hpath
            obtain ⟨hpath1, hidx1⟩ := hpath
            subst hpath1; subst hidx1
            exact ⟨hle, u, by unfold subtreeAt; simp [hu], c, hc, hpc⟩

/-- In a well-formed leaf, a present pane is the leaf's own pane. -/
theorem paneInTree_leaf_pane {pn : Option Pane} {sl : SplitLine}
    {c0 c1 : Option DisplayNode} {pane : Pane}
    (hwf : wfNode (.mk pn sl c0 c1) = true)
    (hax : sl.Axis = .splitAxisNone)
    (hin : paneInTree pane (.mk pn sl c0 c1) = true) : pn = some pane := by
  obtain ⟨-, h0, h1⟩ := wfNode_leaf_fields hwf hax
  subst h0; subst h1
  unfold paneInTree at hin
  simpa using hin

/-- A well-formed leaf containing a pane stores it directly. -/
theorem childPaneIs_of_leaf_in {d : DisplayNode} {pane : Pane}
    (hwfd : wfNode d = true) (hax : d.SplitLineOf.Axis = .splitAxisNone)
    (hind : paneInTree pane d = true) : childPaneIs (some d) pane = true := by
  cases d with
  | mk pd sld cd0 cd1 =>
    rw [DisplayNode.SplitLineOf] at hax
    have := paneInTree_leaf_pane hwfd hax hind
    simp [childPaneIs, DisplayNode.PaneOf, this]

/-- On a well-formed hierarchy whose root is interior, the parent search
succeeds for every present pane. -/
theorem ParentNodeForPane_isSome (pane : Pane) :
    (t : DisplayNode) → wfNode t = true →
    ¬t.SplitLineOf.Axis = .splitAxisNone → paneInTree pane t = true →
    (ParentNodeForPane pane (some t)).isSome = true
  | .mk p sl c0 c1, hwf, hint, hin => by
    rw [DisplayNode.SplitLineOf] at hint
    obtain ⟨hp, d0, d1, h0, h1, hw0, hw1⟩ := wfNode_interior_fields hwf hint
    subst hp; subst h0; subst h1
    have hin' : paneInTree pane d0 = true ∨ paneInTree pane d1 = true := by
      unfold paneInTree at hin
      simpa using hin
    unfold ParentNodeForPane
    by_cases hc0 : childPaneIs (some d0) pane = true
    · simp [hc0]
    · rw [if_neg hc0]
      by_cases hc1 : childPaneIs (some d1) pane = true
      · simp [hc1]
      · rw [if_neg hc1]
        -- neither child directly stores the pane, so whichever subtree
        -- contains it is interior and the recursive search succeeds there
        cases hin2 : paneInTree pane d0 with
        | true =>
          by_cases hax0 : d0.SplitLineOf.Axis = .splitAxisNone
          · exact absurd (childPaneIs_of_leaf_in hw0 hax0 hin2) hc0
          · have hs0 := ParentNodeForPane_isSome pane d0 hw0 hax0 hin2
            cases hr : ParentNodeForPane pane (some d0) with
            | some r => obtain ⟨rp, ri⟩ := r; simp
            | none => rw [hr] at hs0; simp at hs0
        | false =>
          have hin1 : paneInTree pane d1 = true := by
            cases hin' with
            | inl hl => rw [hin2] at hl; cases hl
            | inr hrr => exact hrr
          by_cases hax1 : d1.SplitLineOf.Axis = .splitAxisNone
          · exact absurd (childPaneIs_of_leaf_in hw1 hax1 hin1) hc1
          · have hs1 := ParentNodeForPane_isSome pane d1 hw1 hax1 hin1
            cases hr : ParentNodeForPane pane (some d0) with
            | some r => obtain ⟨rp, ri⟩ := r; simp
            | none =>
              cases hq : ParentNodeForPane pane (some d1) with
              | some r => obtain ⟨rp, ri⟩ := r; simp
              | none => rw [hq] at hs1; simp at hs1

/-!
### Structural mutations

The config editor's pick callbacks, registered in `wmInit`.  Each one
looks its target up by pane and then mutates through the returned
pointer; a lookup miss makes the Go code dereference nil (a panic),
rendered here as `none`.
-/

/-- The node value `handleSplitPick`'s callback leaves behind at the
picked node: `Children[0]` a fresh leaf holding a new `EmptyPane`
(identified by `fresh`), `Children[1]` a fresh leaf holding the picked
pane, `Pane` nil, `SplitLine.Pos` 0.5, `SplitLine.Axis` the given axis. -/
def splitResultNode (axis : SplitType) (fresh pane : Pane) : DisplayNode :=
  .mk none ⟨1/2, axis⟩ (some (leafNode fresh)) (some (leafNode pane))

/-- `handleSplitPick axis`'s pick callback (wm.go, `wmInit`): find the
node for the picked pane and overwrite it in place with
`splitResultNode`.  `fresh` identifies the newly allocated `&EmptyPane{}`.
A lookup miss (`none`) models the source's unguarded nil dereference. -/
def handleSplitPick (axis : SplitType) (fresh pane : Pane) (root : DisplayNode) :
    Option DisplayNode :=
  match NodeForPane pane root with
  | none => none
  | some path => replaceAt root path (splitResultNode axis fresh pane)

/-- The "Delete" button's pick callback (wm.go, `wmInit`): find
`(node, idx) = ParentNodeForPane(pane)` and perform
`*node = *node.Children[idx ^ 1]`.  A lookup miss, or a nil sibling
pointer, models the source's unguarded nil dereference. -/
def deletePick (pane : Pane) (root : DisplayNode) : Option DisplayNode :=
  match ParentNodeForPane pane (some root) with
  | none => none
  | some (path, idx) =>
    match subtreeAt root path with
    | none => none
    | some node =>
      match node.Child (Nat.xor idx 1) with
      | none => none
      | some sibling => replaceAt root path sibling

/-- The "Exchange" button's second-pick step (wm.go, `wmInit`): look up
the nodes for both picked panes, then swap their `Pane` fields — but only
when the two picks differ (`pane != wm.paneFirstPick`); equal picks leave
the tree untouched (and never dereference the lookups). -/
def exchangePick (firstPick pane : Pane) (root : DisplayNode) : Option DisplayNode :=
  if pane = firstPick then some root
  else
    match NodeForPane firstPick root, NodeForPane pane root with
    | some p0, some p1 =>
      match setPaneAt root p0 (some pane) with
      | none => none
      | some root' => setPaneAt root' p1 (some firstPick)
    | _, _ => none

/-- The "Copy" button's second-pick step (wm.go, `wmInit`): find the node
for the destination pane and overwrite its `Pane` field with
`wm.paneFirstPick.Duplicate(true)`; `dup` identifies that freshly
allocated duplicate. -/
def copyPick (dup pane : Pane) (root : DisplayNode) : Option DisplayNode :=
  match NodeForPane pane root with
  | none => none
  | some path => setPaneAt root path (some dup)

/-- `DisplayNode.SplitX` (wm.go): a new interior node with the receiver
as `Children[0]`, `newChild` as `Children[1]`, split position `x` and
axis `SplitAxisX`.  (The source logs when the receiver is not a leaf but
builds the node regardless.) -/
def DisplayNode.SplitX (d : DisplayNode) (x : Rat) (newChild : DisplayNode) :
    DisplayNode :=
  .mk none ⟨x, .splitAxisX⟩ (some d) (some newChild)

/-- `DisplayNode.SplitY` (wm.go): documented as splitting vertically,
"analogous to the SplitX method" — but the node it builds carries
`Axis: SplitAxisX`, exactly as `SplitX` does. -/
def DisplayNode.SplitY (d : DisplayNode) (y : Rat) (newChild : DisplayNode) :
    DisplayNode :=
  .mk none ⟨y, .splitAxisX⟩ (some d) (some newChild)

/-!
### Preservation of the structural invariant
-/

theorem wfNode_leafNode (p : Pane) : wfNode (leafNode p) = true := by
  unfold leafNode wfNode
  simp

theorem wfNode_splitResultNode {axis : SplitType} (fresh pane : Pane)
    (hax : ¬axis = .splitAxisNone) :
    wfNode (splitResultNode axis fresh pane) = true := by
  unfold splitResultNode
  conv_lhs => unfold wfNode
  simp [hax, wfNode_leafNode]

theorem wfNode_Child_wf {t c : DisplayNode} {n : Nat}
    (hwf : wfNode t = true) (hc : t.Child n = some c) : wfNode c = true := by
  cases t with
  | mk p sl c0 c1 =>
    cases n with
    | zero =>
      rw [DisplayNode.Child] at hc
      exact wfNode_child (b := false) hwf (by simpa)
    | succ m =>
      rw [DisplayNode.Child] at hc
      · exact wfNode_child (b := true) hwf (by simpa)
      · omega

/-- The node found by `subtreeAt` at a pane-bearing position of a
well-formed hierarchy is a childless leaf storing that pane. -/
theorem leaf_shape_of_pane {t u : DisplayNode} {path : List Bool} {a : Pane}
    (hwf : wfNode t = true) (hu : subtreeAt t path = some u)
    (hpu : u.PaneOf = some a) :
    ∃ slu, u = .mk (some a) slu none none ∧ slu.Axis = .splitAxisNone := by
  have hwfu := wfNode_subtreeAt hwf hu
  cases u with
  | mk pu slu cu0 cu1 =>
    rw [DisplayNode.PaneOf] at hpu
    have hax := wfNode_axis_of_pane hwfu hpu
    obtain ⟨-, h0, h1⟩ := wfNode_leaf_fields hwfu hax
    exact ⟨slu, by rw [hpu, h0, h1], hax⟩

theorem subtreeAt_append_none_of_leaf {t : DisplayNode} {path : List Bool}
    {a : Pane} {slu : SplitLine}
    (hu : subtreeAt t path = some (.mk (some a) slu none none)) :
    ∀ (b : Bool) (rest : List Bool), subtreeAt t (path ++ b :: rest) = none := by
  intro b rest
  rw [subtreeAt_append, hu]
  simpa using subtreeAt_cons_of_leaf b rest

theorem wfNode_setPaneAt {t u t' : DisplayNode} {path : List Bool} {a q : Pane}
    (hwf : wfNode t = true) (hu : subtreeAt t path = some u)
    (hpu : u.PaneOf = some a)
    (h : setPaneAt t path (some q) = some t') : wfNode t' = true := by
  obtain ⟨slu, hu_eq, hax⟩ := leaf_shape_of_pane hwf hu hpu
  subst hu_eq
  unfold setPaneAt at h
  rw [hu] at h
  dsimp only at h
  have hrwf : wfNode (.mk (some q) slu none none) = true := by
    conv_lhs => unfold wfNode
    simp [hax]
  exact wfNode_replaceAt hwf hrwf h

theorem wfNode_handleSplitPick {axis : SplitType} {fresh pane : Pane}
    {t t' : DisplayNode}
    (hax : ¬axis = .splitAxisNone) (hwf : wfNode t = true)
    (h : handleSplitPick axis fresh pane t = some t') : wfNode t' = true := by
  unfold handleSplitPick at h
  cases hs : NodeForPane pane t with
  | none => rw [hs] at h; cases h
  | some path =>
    rw [hs] at h
    exact wfNode_replaceAt hwf (wfNode_splitResultNode fresh pane hax) h

theorem wfNode_deletePick {pane : Pane} {t t' : DisplayNode}
    (hwf : wfNode t = true)
    (h : deletePick pane t = some t') : wfNode t' = true := by
  unfold deletePick at h
  cases hp : ParentNodeForPane pane (some t) with
  | none => rw [hp] at h; cases h
  | some r =>
    obtain ⟨path, idx⟩ := r
    rw [hp] at h
    dsimp only at h
    cases hs : subtreeAt t path with
    | none => rw [hs] at h; cases h
    | some node =>
      rw [hs] at h
      dsimp only at h
      cases hc : node.Child (Nat.xor idx 1) with
      | none => rw [hc] at h; cases h
      | some sibling =>
        rw [hc] at h
        have hwfn := wfNode_subtreeAt hwf hs
        have hwfs := wfNode_Child_wf hwfn hc
        exact wfNode_replaceAt hwf hwfs h

theorem wfNode_exchangePick {first pane : Pane} {t t' : DisplayNode}
    (hwf : wfNode t = true)
    (h : exchangePick first pane t = some t') : wfNode t' = true := by
  unfold exchangePick at h
  by_cases heq : pane = first
  · rw [if_pos heq] at h
    simp only [Option.some.injEq] at h
    exact h ▸ hwf
  · rw [if_neg heq] at h
    cases hn0 : NodeForPane first t with
    | none => rw [hn0] at h; dsimp only at h; cases h
    | some p0 =>
      cases hn1 : NodeForPane pane t with
      | none => rw [hn0, hn1] at h; dsimp only at h; cases h
      | some p1 =>
        rw [hn0, hn1] at h
        dsimp only at h
        cases hs0 : setPaneAt t p0 (some pane) with
        | none => rw [hs0] at h; cases h
        | some root1 =>
          rw [hs0] at h
          obtain ⟨u0, hu0, hpu0⟩ := NodeForPane_correct first t p0 hn0
          obtain ⟨u1, hu1, hpu1⟩ := NodeForPane_correct pane t p1 hn1
          have hwf1 : wfNode root1 = true := wfNode_setPaneAt hwf hu0 hpu0 hs0
          obtain ⟨sl0, hu0eq, -⟩ := leaf_shape_of_pane hwf hu0 hpu0
          obtain ⟨sl1, hu1eq, -⟩ := leaf_shape_of_pane hwf hu1 hpu1
          have hne : p0 ≠ p1 := by
            intro hh
            subst hh
            rw [hu0] at hu1
            injection hu1 with hh2
            rw [hh2] at hpu0
            rw [hpu0] at hpu1
            injection hpu1 with hh3
            exact heq hh3.symm
          -- extract the replaceAt underlying the first setPaneAt
          have hrep : ∃ r0, replaceAt t p0 r0 = some root1 := by
            unfold setPaneAt at hs0
            rw [hu0] at hs0
            subst hu0eq
            exact ⟨_, hs0⟩
          obtain ⟨r0, hrep⟩ := hrep
          have hsub1 : subtreeAt root1 p1 = some u1 := by
            rw [subtreeAt_replaceAt_of_ne hne hrep
              (subtreeAt_append_none_of_leaf (hu0eq ▸ hu0))
              (subtreeAt_append_none_of_leaf (hu1eq ▸ hu1))
              (by rw [hu1]; rfl)]
            exact hu1
          exact wfNode_setPaneAt hwf1 hsub1 hpu1 h

theorem wfNode_copyPick {dup pane : Pane} {t t' : DisplayNode}
    (hwf : wfNode t = true)
    (h : copyPick dup pane t = some t') : wfNode t' = true := by
  unfold copyPick at h
  cases hs : NodeForPane pane t with
  | none => rw [hs] at h; cases h
  | some path =>
    rw [hs] at h
    obtain ⟨u, hu, hpu⟩ := NodeForPane_correct pane t path hs
    exact wfNode_setPaneAt hwf hu hpu h

/-- One config-editor mutation of the display hierarchy, as dispatched by
the pick handlers registered in `wmInit`: a split (the two split buttons
pass `SplitAxisX` and `SplitAxisY` respectively), a delete, an exchange,
or a copy. -/
inductive EditStep : DisplayNode → DisplayNode → Prop where
  | split (axis : SplitType) (fresh pane : Pane) (t t' : DisplayNode)
      (haxis : axis = .splitAxisX ∨ axis = .splitAxisY)
      (h : handleSplitPick axis fresh pane t = some t') : EditStep t t'
  | delete (pane : Pane) (t t' : DisplayNode)
      (h : deletePick pane t = some t') : EditStep t t'
  | exchange (firstPick pane : Pane) (t t' : DisplayNode)
      (h : exchangePick firstPick pane t = some t') : EditStep t t'
  | copy (dup pane : Pane) (t t' : DisplayNode)
      (h : copyPick dup pane t = some t') : EditStep t t'

/-- A tree has an interior node somewhere. -/
def anyInterior : DisplayNode → Bool
  | .mk _ sl c0 c1 =>
    !(decide (sl.Axis = SplitType.splitAxisNone)) ||
      (match c0 with | none => false | some d0 => anyInterior d0) ||
      (match c1 with | none => false | some d1 => anyInterior d1)

/-- Under the invariant, a tree contains an interior node exactly when its
root is interior (a well-formed leaf root has no other nodes). -/
theorem root_interior_of_anyInterior {t : DisplayNode}
    (hwf : wfNode t = true) (h : anyInterior t = true) :
    ¬t.SplitLineOf.Axis = .splitAxisNone := by
  cases t with
  | mk p sl c0 c1 =>
    rw [DisplayNode.SplitLineOf]
    intro hax
    obtain ⟨-, h0, h1⟩ := wfNode_leaf_fields hwf hax
    subst h0; subst h1
    unfold anyInterior at h
    simp [hax] at h

theorem numLeaves_eq_one_of_leaf {c : DisplayNode}
    (hax : c.SplitLineOf.Axis = .splitAxisNone) : numLeaves c = 1 := by
  cases c with
  | mk p sl c0 c1 =>
    rw [DisplayNode.SplitLineOf] at hax
    conv_lhs => unfold numLeaves
    simp [hax]

/-!
### The claims
-/

/-- C2: every layout tree reachable by applying the config-editor
mutations (split, delete, exchange, copy) to a tree satisfying the
invariant still satisfies it at every node: each node is either a leaf
(pane non-nil, divider axis `SplitAxisNone`, no children) or an interior
node (pane nil, axis non-`None`, exactly two non-nil children) — never
both and never neither. -/
theorem claim_C2_node_invariant {t t' : DisplayNode}
    (hwf : wfNode t = true) (hsteps : Relation.ReflTransGen EditStep t t') :
    wfNode t' = true := by
  induction hsteps with
  | refl => exact hwf
  | tail hab hstep ih =>
    cases hstep with
    | split axis fresh pane _ _ haxis h =>
      refine wfNode_handleSplitPick ?_ ih h
      cases haxis with
      | inl hh => subst hh; simp
      | inr hh => subst hh; simp
    | delete pane _ _ h => exact wfNode_deletePick ih h
    | exchange a b _ _ h => exact wfNode_exchangePick ih h
    | copy dup pane _ _ h => exact wfNode_copyPick ih h

theorem claim_C2_node_invariant_witness :
    wfNode (leafNode ⟨0, false, false⟩) = true ∧
    wfNode (splitResultNode .splitAxisX ⟨1, false, false⟩ ⟨0, false, false⟩)
      = true :=
  ⟨by simp [leafNode, wfNode],
    @claim_C2_node_invariant (leafNode ⟨0, false, false⟩)
      (splitResultNode .splitAxisX ⟨1, false, false⟩ ⟨0, false, false⟩)
      (by simp [leafNode, wfNode])
      (Relation.ReflTransGen.single
        (EditStep.split .splitAxisX ⟨1, false, false⟩ ⟨0, false, false⟩ _ _
          (Or.inl rfl)
          (by unfold handleSplitPick
              simp [NodeForPane, leafNode, replaceAt])))⟩

/-- C1 counterexample: splitting the single-leaf tree holding pane
`⟨0, false, false⟩` (the "original" pane) with a fresh placeholder pane
`⟨1, false, false⟩` puts the PLACEHOLDER in `children[0]` and the
original pane in `children[1]` — not the original pane in `children[0]`
as the claim states. -/
theorem claim_C1_counterexample :
    handleSplitPick .splitAxisX ⟨1, false, false⟩ ⟨0, false, false⟩
        (leafNode ⟨0, false, false⟩) =
      some (splitResultNode .splitAxisX ⟨1, false, false⟩ ⟨0, false, false⟩) ∧
    ((splitResultNode .splitAxisX ⟨1, false, false⟩ ⟨0, false, false⟩).Child 0).bind
        DisplayNode.PaneOf = some (⟨1, false, false⟩ : Pane) ∧
    ¬((splitResultNode .splitAxisX ⟨1, false, false⟩ ⟨0, false, false⟩).Child 0).bind
        DisplayNode.PaneOf = some (⟨0, false, false⟩ : Pane) := by
  refine ⟨?_, ?_, ?_⟩
  · unfold handleSplitPick
    simp [NodeForPane, leafNode, replaceAt]
  · simp [splitResultNode, leafNode, DisplayNode.Child, DisplayNode.PaneOf]
  · simp [splitResultNode, leafNode, DisplayNode.Child, DisplayNode.PaneOf]

/-- C1 (amended): for the node found for the picked pane, the split-pick
callback mutates it in place into an interior node whose `children[0]` is
a fresh leaf holding the NEW placeholder region and whose `children[1]`
is a fresh leaf holding the ORIGINAL pane, with divider axis the given
axis and divider position 0.5. -/
theorem claim_C1_split_shape {axis : SplitType} {fresh pane : Pane}
    {t : DisplayNode} {path : List Bool}
    (h : NodeForPane pane t = some path) :
    ∃ t', handleSplitPick axis fresh pane t = some t' ∧
      subtreeAt t' path =
        some (.mk none ⟨1/2, axis⟩ (some (leafNode fresh))
          (some (leafNode pane))) := by
  obtain ⟨u, hu, -⟩ := NodeForPane_correct pane t path h
  obtain ⟨t', ht'⟩ := replaceAt_isSome (splitResultNode axis fresh pane) hu
  refine ⟨t', ?_, ?_⟩
  · unfold handleSplitPick
    rw [h]
    exact ht'
  · have := subtreeAt_replaceAt_self ht'
    simpa [splitResultNode] using this

theorem claim_C1_split_shape_witness :
    NodeForPane ⟨0, false, false⟩ (leafNode ⟨0, false, false⟩) = some [] ∧
    ∃ t', handleSplitPick .splitAxisX ⟨1, false, false⟩ ⟨0, false, false⟩
        (leafNode ⟨0, false, false⟩) = some t' ∧
      subtreeAt t' [] =
        some (.mk none ⟨1/2, .splitAxisX⟩ (some (leafNode ⟨1, false, false⟩))
          (some (leafNode ⟨0, false, false⟩))) :=
  ⟨by simp [NodeForPane, leafNode],
    claim_C1_split_shape (by simp [NodeForPane, leafNode])⟩

/-- C3: on a well-formed tree containing an interior node, deleting a
present pane overwrites the pane's parent node with the sibling subtree
`children[idx ^ 1]`: afterwards the node at the parent's position equals
the pre-call sibling subtree, and the total leaf count decreases by
exactly one. -/
theorem claim_C3_delete_collapses {pane : Pane} {t : DisplayNode}
    (hwf : wfNode t = true) (hany : anyInterior t = true)
    (hin : paneInTree pane t = true) :
    ∃ path idx parent sibling t',
      ParentNodeForPane pane (some t) = some (path, idx) ∧
      subtreeAt t path = some parent ∧
      parent.Child (Nat.xor idx 1) = some sibling ∧
      deletePick pane t = some t' ∧
      subtreeAt t' path = some sibling ∧
      numLeaves t' + 1 = numLeaves t := by
  have hint := root_interior_of_anyInterior hwf hany
  have hsome := ParentNodeForPane_isSome pane t hwf hint hin
  cases hp : ParentNodeForPane pane (some t) with
  | none => rw [hp] at hsome; simp at hsome
  | some r =>
    obtain ⟨path, idx⟩ := r
    obtain ⟨hle, parent, hpar, c, hc, hpc⟩ :=
      ParentNodeForPane_correct pane t path idx hp
    have hwfp := wfNode_subtreeAt hwf hpar
    have hwfc := wfNode_Child_wf hwfp hc
    have hcax : c.SplitLineOf.Axis = .splitAxisNone := by
      cases c with
      | mk pc slc cc0 cc1 =>
        rw [DisplayNode.PaneOf] at hpc
        rw [DisplayNode.SplitLineOf]
        exact wfNode_axis_of_pane hwfc hpc
    have hnc : numLeaves c = 1 := numLeaves_eq_one_of_leaf hcax
    have hidx : idx = 0 ∨ idx = 1 := by omega
    cases parent with
    | mk pp slp pc0 pc1 =>
      cases hidx with
      | inl h0 =>
        subst h0
        have hc0 : pc0 = some c := by simpa [DisplayNode.Child] using hc
        have hintp : ¬slp.Axis = .splitAxisNone :=
          wfNode_axis_of_child (b := false) hwfp (by simpa using hc0)
        obtain ⟨hpp, d0, d1, hh0, hh1, hw0, hw1⟩ :=
          wfNode_interior_fields hwfp hintp
        rw [hh0] at hc0
        injection hc0 with hdc
        subst hdc
        subst hpp; subst hh0; subst hh1
        obtain ⟨t', hrep⟩ := replaceAt_isSome d1 hpar
        have hsib : (DisplayNode.mk none slp (some d0) (some d1)).Child
            (Nat.xor 0 1) = some d1 := rfl
        have hdel : deletePick pane t = some t' := by
          unfold deletePick
          rw [hp]
          dsimp only
          rw [hpar]
          dsimp only
          rw [hsib]
          exact hrep
        have hsub := subtreeAt_replaceAt_self hrep
        have hnl := numLeaves_replaceAt hwf hpar hrep
        have hpnl : numLeaves (DisplayNode.mk none slp (some d0) (some d1)) =
            numLeaves d0 + numLeaves d1 := numLeaves_mk_interior _ _ _ _ hintp
        exact ⟨path, 0, _, d1, t', rfl, hpar, hsib, hdel, hsub, by omega⟩
      | inr h1 =>
        subst h1
        have hc1 : pc1 = some c := by simpa [DisplayNode.Child] using hc
        have hintp : ¬slp.Axis = .splitAxisNone :=
          wfNode_axis_of_child (b := true) hwfp (by simpa using hc1)
        obtain ⟨hpp, d0, d1, hh0, hh1, hw0, hw1⟩ :=
          wfNode_interior_fields hwfp hintp
        rw [hh1] at hc1
        injection hc1 with hdc
        subst hdc
        subst hpp; subst hh0; subst hh1
        obtain ⟨t', hrep⟩ := replaceAt_isSome d0 hpar
        have hsib : (DisplayNode.mk none slp (some d0) (some d1)).Child
            (Nat.xor 1 1) = some d0 := rfl
        have hdel : deletePick pane t = some t' := by
          unfold deletePick
          rw [hp]
          dsimp only
          rw [hpar]
          dsimp only
          rw [hsib]
          exact hrep
        have hsub := subtreeAt_replaceAt_self hrep
        have hnl := numLeaves_replaceAt hwf hpar hrep
        have hpnl : numLeaves (DisplayNode.mk none slp (some d0) (some d1)) =
            numLeaves d0 + numLeaves d1 := numLeaves_mk_interior _ _ _ _ hintp
        exact ⟨path, 1, _, d0, t', rfl, hpar, hsib, hdel, hsub, by omega⟩

theorem claim_C3_delete_collapses_witness :
    (wfNode (DisplayNode.mk none ⟨1/2, .splitAxisX⟩
        (some (leafNode ⟨0, false, false⟩))
        (some (leafNode ⟨1, false, false⟩))) = true ∧
     anyInterior (DisplayNode.mk none ⟨1/2, .splitAxisX⟩
        (some (leafNode ⟨0, false, false⟩))
        (some (leafNode ⟨1, false, false⟩))) = true ∧
     paneInTree ⟨0, false, false⟩ (DisplayNode.mk none ⟨1/2, .splitAxisX⟩
        (some (leafNode ⟨0, false, false⟩))
        (some (leafNode ⟨1, false, false⟩))) = true) ∧
    (∃ path idx parent sibling t',
      ParentNodeForPane ⟨0, false, false⟩
          (some (DisplayNode.mk none ⟨1/2, .splitAxisX⟩
            (some (leafNode ⟨0, false, false⟩))
            (some (leafNode ⟨1, false, false⟩)))) = some (path, idx) ∧
      subtreeAt (DisplayNode.mk none ⟨1/2, .splitAxisX⟩
          (some (leafNode ⟨0, false, false⟩))
          (some (leafNode ⟨1, false, false⟩))) path = some parent ∧
      parent.Child (Nat.xor idx 1) = some sibling ∧
      deletePick ⟨0, false, false⟩ (DisplayNode.mk none ⟨1/2, .splitAxisX⟩
          (some (leafNode ⟨0, false, false⟩))
          (some (leafNode ⟨1, false, false⟩))) = some t' ∧
      subtreeAt t' path = some sibling ∧
      numLeaves t' + 1 = numLeaves (DisplayNode.mk none ⟨1/2, .splitAxisX⟩
          (some (leafNode ⟨0, false, false⟩))
          (some (leafNode ⟨1, false, false⟩)))) :=
  ⟨⟨by simp [wfNode, leafNode], by simp [anyInterior],
     by simp [paneInTree, leafNode]⟩,
   claim_C3_delete_collapses
     (by simp [wfNode, leafNode]) (by simp [anyInterior])
     (by simp [paneInTree, leafNode])⟩

/-- C9: for every node `d`, offset `y` and child `c`, the vertical-split
helper `SplitY` returns an interior node with children `[d, c]` and
divider position `y` whose divider axis is the horizontal-split value
`SplitAxisX`. -/
theorem claim_C9_SplitY_sets_x_axis (d : DisplayNode) (y : Rat)
    (c : DisplayNode) :
    (d.SplitY y c).SplitLineOf = ⟨y, .splitAxisX⟩ ∧
    (d.SplitY y c).Child 0 = some d ∧ (d.SplitY y c).Child 1 = some c ∧
    (d.SplitY y c).PaneOf = none :=
  ⟨rfl, rfl, rfl, rfl⟩

/-- C7: when delete's target pane is absent from the tree (here: the tree
is the single leaf holding pane `⟨0, false, false⟩` and delete is invoked
for pane `⟨1, false, false⟩`), `ParentNodeForPane` reports the miss
(`nil, -1`), but the delete callback then dereferences the nil parent
unconditionally (`*node = *node.Children[idx ^ 1]`): the operation
reaches the modelled nil dereference (`none`) instead of aborting with
the tree unchanged. -/
theorem claim_C7_delete_missing_target :
    ParentNodeForPane ⟨1, false, false⟩ (some (leafNode ⟨0, false, false⟩))
        = none ∧
    deletePick ⟨1, false, false⟩ (leafNode ⟨0, false, false⟩) = none ∧
    ¬deletePick ⟨1, false, false⟩ (leafNode ⟨0, false, false⟩) =
        some (leafNode ⟨0, false, false⟩) := by
  have hnone : ∀ q : Pane, ParentNodeForPane q none = none := by
    intro q
    unfold ParentNodeForPane
    rfl
  have hps : ParentNodeForPane ⟨1, false, false⟩
      (some (leafNode ⟨0, false, false⟩)) = none := by
    unfold ParentNodeForPane
    simp [leafNode, childPaneIs, hnone]
  refine ⟨hps, ?_, ?_⟩
  · unfold deletePick
    rw [hps]
  · unfold deletePick
    rw [hps]
    simp

/-!
### The F-key command console (StatusBar)

The command and argument-type interfaces (`FKeyCommand`,
`CommandArg`) are collaborators declared outside wm.go; the status bar
consumes them through `ArgTypes()`, the `*AircraftCommandArg` type test,
`Expand` (whose Go `error` is an `Except` error message here) and `Do`
(whose Go `error` result is `Option String`: `some msg` is a failure
carrying `err.Error()`).  Fields used only for drawing (`Name`,
`Prompt`) are omitted.
-/

/-- A command argument type as the status bar consumes it. -/
structure CommandArg where
  isAircraftArg : Bool
  Expand : String → Except String String

/-- An F-key command as the status bar consumes it. -/
structure FKeyCommand where
  ArgTypes : List CommandArg
  Do : List String → Option String

/-- `StatusBar` from wm.go (the drawing-only `eventsId` field omitted). -/
structure StatusBar where
  activeCommand : Option FKeyCommand
  inputFocus : Nat
  inputCursor : Nat
  commandArgs : List String
  commandArgErrors : List String
  commandErrorString : String

/-- Whether `ty.Expand(callsign)` succeeds and returns the callsign
itself — the `mustMatch` test of `setSelectedAircraft`
(`err != nil || cs != callsign` continues the scan). -/
def expandMatches (ty : CommandArg) (callsign : String) : Bool :=
  match ty.Expand callsign with
  | .ok cs => cs == callsign
  | .error _ => false

/-- The slot update `setSelectedAircraft` performs once an
aircraft-callsign argument is found at index `i`: write the callsign,
clear that slot's error, and advance focus (wrapping) when the written
slot is the focused one.  (`List.set` out of range is a no-op; the Go
indexing panics there, a case guarded by the equal-lengths invariant.) -/
def writeCallsignSlot (sb : StatusBar) (i : Nat) (callsign : String) :
    StatusBar :=
  let sb1 := { sb with
    commandArgs := sb.commandArgs.set i callsign,
    commandArgErrors := sb.commandArgErrors.set i "" }
  if sb1.inputFocus = i then
    if 0 < sb1.commandArgs.length then
      { sb1 with inputFocus := (sb1.inputFocus + 1) % sb1.commandArgs.length,
                 inputCursor := 0 }
    else
      { sb1 with inputCursor := (sb1.commandArgs.getD i "").length }
  else sb1

/-- The scan of `setSelectedAircraft` over `ArgTypes()`: find the first
argument of aircraft-callsign type (subject to the `mustMatch` check,
which `continue`s past non-matching candidates) and write the callsign
into its slot, then `break`; `i` is the index of the head of `tys`. -/
def setSelectedAircraftLoop (sb : StatusBar) (callsign : String)
    (mustMatch : Bool) : List CommandArg → Nat → StatusBar
  | [], _ => sb
  | ty :: tys, i =>
    if ty.isAircraftArg then
      if mustMatch && !expandMatches ty callsign then
        setSelectedAircraftLoop sb callsign mustMatch tys (i + 1)
      else
        writeCallsignSlot sb i callsign
    else
      setSelectedAircraftLoop sb callsign mustMatch tys (i + 1)

/-- `StatusBar.setSelectedAircraft` (wm.go).  Callers guard on an active
command (the source would dereference nil otherwise). -/
def StatusBar.setSelectedAircraft (sb : StatusBar) (callsign : String)
    (mustMatch : Bool) : StatusBar :=
  match sb.activeCommand with
  | none => sb
  | some cmd => setSelectedAircraftLoop sb callsign mustMatch cmd.ArgTypes 0

/-- An event from the event stream, as the status bar consumes it. -/
inductive Event where
  | selectedAircraft (callsign : String)
  | other

/-- `StatusBar.processEvents`: for every `SelectedAircraftEvent` arriving
while a command is active, the selected callsign is pushed into the
command's aircraft argument with `mustMatch = false` — the source
comments: "use the aircraft regardless of whether the command thinks
it's valid". -/
def StatusBar.processEvents (sb : StatusBar) (events : List Event) :
    StatusBar :=
  events.foldl
    (fun sb e =>
      match e with
      | .selectedAircraft callsign =>
        if sb.activeCommand.isSome then sb.setSelectedAircraft callsign false
        else sb
      | .other => sb)
    sb

/-- The per-slot expansion pass of submit: completions of the arguments
that expanded, the per-slot error strings, and whether any argument
failed. -/
def expandLoop : List (String × CommandArg) →
    List String × List String × Bool
  | [] => ([], [], false)
  | (arg, ty) :: rest =>
    let r := expandLoop rest
    match ty.Expand arg with
    | .ok comp => (comp :: r.1, "" :: r.2.1, r.2.2)
    | .error e => (r.1, e :: r.2.1, true)

/-- The `TextEditReturnEnter` case of `StatusBar.draw`: clear the
command-level error, run `Expand` over every argument recording per-slot
errors; if any argument failed, stop (`break` — the command stays
active); otherwise run `Do` on the completed values — a failure stores
its message as the command-level error, success clears the command out.
(The field is drawn, hence submitted, only with a command active; the
pairing of raw arguments with their declared types follows the source's
`argTypes[i]` indexing, valid under the equal-lengths invariant.) -/
def StatusBar.submitEnter (sb : StatusBar) : StatusBar :=
  match sb.activeCommand with
  | none => sb
  | some cmd =>
    let r := expandLoop (sb.commandArgs.zip cmd.ArgTypes)
    let sb1 := { sb with commandErrorString := "", commandArgErrors := r.2.1 }
    if r.2.2 then sb1
    else
      match cmd.Do r.1 with
      | some msg => { sb1 with commandErrorString := msg }
      | none =>
        { sb1 with
          activeCommand := none
          commandArgs := []
          commandArgErrors := [] }

/-- The `KeyEscape` branch of `StatusBar.processKeys`: "Clear out the
current command." -/
def StatusBar.processKeyEscape (sb : StatusBar) (escapePressed : Bool) :
    StatusBar :=
  if escapePressed then
    { sb with activeCommand := none, commandErrorString := "" }
  else sb

/-- Index of the first declared argument of aircraft-callsign type. -/
def firstAircraftIdx : List CommandArg → Option Nat
  | [] => none
  | ty :: tys =>
    if ty.isAircraftArg then some 0
    else (firstAircraftIdx tys).map (· + 1)

theorem firstAircraftIdx_lt {tys : List CommandArg} {i : Nat}
    (h : firstAircraftIdx tys = some i) : i < tys.length := by
  induction tys generalizing i with
  | nil => simp [firstAircraftIdx] at h
  | cons ty rest ih =>
    unfold firstAircraftIdx at h
    by_cases hair : ty.isAircraftArg
    · rw [if_pos hair] at h
      simp only [Option.some.injEq] at h
      simp [← h]
    · rw [if_neg hair] at h
      simp only [Option.map_eq_some'] at h
      obtain ⟨i', hi', hsucc⟩ := h
      have := ih hi'
      simp only [List.length_cons]
      omega

theorem setSelectedAircraftLoop_write (callsign : String) :
    ∀ (tys : List CommandArg) (i j : Nat) (sb : StatusBar),
    firstAircraftIdx tys = some i →
    setSelectedAircraftLoop sb callsign false tys j =
      writeCallsignSlot sb (j + i) callsign := by
  intro tys
  induction tys with
  | nil => intro i j sb h; simp [firstAircraftIdx] at h
  | cons ty rest ih =>
    intro i j sb h
    unfold firstAircraftIdx at h
    by_cases hair : ty.isAircraftArg
    · rw [if_pos hair] at h
      simp only [Option.some.injEq] at h
      unfold setSelectedAircraftLoop
      rw [if_pos hair]
      simp [← h]
    · rw [if_neg hair] at h
      simp only [Option.map_eq_some'] at h
      obtain ⟨i', hi', hsucc⟩ := h
      unfold setSelectedAircraftLoop
      rw [if_neg hair]
      rw [ih i' (j + 1) sb hi']
      congr 1
      omega

/-- A concrete aircraft-callsign argument whose acceptance rule rejects
every callsign. -/
def aircraftArgNoMatch : CommandArg :=
  ⟨true, fun _ => .error "unknown aircraft"⟩

/-- A command with a single aircraft-callsign argument (execution always
succeeds; it is irrelevant here). -/
def cmdOneAircraftArg : FKeyCommand :=
  ⟨[aircraftArgNoMatch], fun _ => none⟩

/-- A freshly initialised collecting state for `cmdOneAircraftArg`. -/
def sbOneAircraftArg : StatusBar :=
  ⟨some cmdOneAircraftArg, 0, 0, [""], [""], ""⟩

/-- C5 counterexample: an external aircraft selection arriving while a
command is active is written into the aircraft slot even though the
argument's acceptance rule REJECTS the callsign (`Expand` fails):
`processEvents` calls `setSelectedAircraft(callsign, false)`, skipping
validation, contrary to the claim that the slot is written only if
validation succeeds. -/
theorem claim_C5_counterexample :
    aircraftArgNoMatch.Expand "AAL1" = .error "unknown aircraft" ∧
    (sbOneAircraftArg.processEvents
      [.selectedAircraft "AAL1"]).commandArgs = ["AAL1"] ∧
    ¬(sbOneAircraftArg.processEvents
      [.selectedAircraft "AAL1"]).commandArgs = [""] := by
  refine ⟨rfl, ?_, ?_⟩ <;>
    simp [StatusBar.processEvents, StatusBar.setSelectedAircraft,
      setSelectedAircraftLoop, writeCallsignSlot, sbOneAircraftArg,
      cmdOneAircraftArg, aircraftArgNoMatch]

/-- C5 (amended): for an external aircraft selection arriving while a
command is active, the console finds the first declared parameter of
aircraft-callsign type and writes the callsign into that slot
UNCONDITIONALLY — no validation is performed (the selection path passes
`mustMatch = false`; the parameter's acceptance rule is consulted only
when a command is freshly activated with an already-selected aircraft) —
clearing the slot's error; if the written slot is the currently focused
one, focus advances to the next slot modulo the argument count and the
cursor resets, otherwise focus is unchanged. -/
theorem claim_C5_selection_write {sb : StatusBar} {cmd : FKeyCommand}
    {callsign : String} {i : Nat}
    (hcmd : sb.activeCommand = some cmd)
    (hidx : firstAircraftIdx cmd.ArgTypes = some i)
    (hlen : sb.commandArgs.length = cmd.ArgTypes.length) :
    sb.setSelectedAircraft callsign false =
      { sb with
        commandArgs := sb.commandArgs.set i callsign
        commandArgErrors := sb.commandArgErrors.set i ""
        inputFocus := if sb.inputFocus = i
          then (i + 1) % sb.commandArgs.length else sb.inputFocus
        inputCursor := if sb.inputFocus = i then 0 else sb.inputCursor } := by
  have hi : i < cmd.ArgTypes.length := firstAircraftIdx_lt hidx
  unfold StatusBar.setSelectedAircraft
  rw [hcmd]
  dsimp only
  rw [setSelectedAircraftLoop_write callsign cmd.ArgTypes i 0 sb hidx]
  unfold writeCallsignSlot
  simp only [Nat.zero_add]
  by_cases hf : sb.inputFocus = i
  · rw [if_pos (by simpa using hf)]
    rw [if_pos (by simp only [List.length_set]; omega)]
    simp [hf]
    exact hcmd
  · rw [if_neg (by simpa using hf)]
    simp [hf]
    exact hcmd

theorem claim_C5_selection_write_witness :
    (sbOneAircraftArg.activeCommand = some cmdOneAircraftArg ∧
     firstAircraftIdx cmdOneAircraftArg.ArgTypes = some 0 ∧
     sbOneAircraftArg.commandArgs.length =
       cmdOneAircraftArg.ArgTypes.length) ∧
    sbOneAircraftArg.setSelectedAircraft "AAL1" false =
      { sbOneAircraftArg with
        commandArgs := sbOneAircraftArg.commandArgs.set 0 "AAL1"
        commandArgErrors := sbOneAircraftArg.commandArgErrors.set 0 ""
        inputFocus := if sbOneAircraftArg.inputFocus = 0
          then (0 + 1) % sbOneAircraftArg.commandArgs.length
          else sbOneAircraftArg.inputFocus
        inputCursor := if sbOneAircraftArg.inputFocus = 0 then 0
          else sbOneAircraftArg.inputCursor } :=
  ⟨⟨rfl, by simp [cmdOneAircraftArg, firstAircraftIdx, aircraftArgNoMatch],
    rfl⟩,
   claim_C5_selection_write rfl
     (by simp [cmdOneAircraftArg, firstAircraftIdx, aircraftArgNoMatch]) rfl⟩

theorem expandLoop_errors (l : List (String × CommandArg)) :
    (expandLoop l).2.1 = l.map (fun p =>
      match p.2.Expand p.1 with | .ok _ => "" | .error e => e) := by
  induction l with
  | nil => simp [expandLoop]
  | cons p rest ih =>
    obtain ⟨arg, ty⟩ := p
    unfold expandLoop
    cases hp : ty.Expand arg with
    | ok c => simp [hp, ih]
    | error e => simp [hp, ih]

theorem expandLoop_anyErr_false_iff (l : List (String × CommandArg)) :
    (expandLoop l).2.2 = false ↔
      ∀ p ∈ l, ∃ c, p.2.Expand p.1 = .ok c := by
  induction l with
  | nil => simp [expandLoop]
  | cons p rest ih =>
    obtain ⟨arg, ty⟩ := p
    unfold expandLoop
    cases hp : ty.Expand arg with
    | ok c =>
      simp only [hp]
      constructor
      · intro hfalse
        intro q hq
        rcases List.mem_cons.mp hq with hq | hq
        · subst hq
          exact ⟨c, hp⟩
        · exact (ih.mp hfalse) q hq
      · intro hall
        exact ih.mpr fun q hq => hall q (List.mem_cons_of_mem _ hq)
    | error e =>
      simp only [hp]
      constructor
      · intro hfalse; cases hfalse
      · intro hall
        obtain ⟨c, hc⟩ := hall (arg, ty) (List.mem_cons_self _ _)
        rw [hp] at hc
        cases hc

theorem expandLoop_completed (l : List (String × CommandArg))
    (h : (expandLoop l).2.2 = false) :
    l.map (fun p => p.2.Expand p.1) = (expandLoop l).1.map Except.ok := by
  induction l with
  | nil => simp [expandLoop]
  | cons p rest ih =>
    obtain ⟨arg, ty⟩ := p
    unfold expandLoop at h ⊢
    cases hp : ty.Expand arg with
    | ok c =>
      rw [hp] at h
      simp only [hp, List.map_cons]
      rw [ih h]
    | error e =>
      rw [hp] at h
      cases h

/-- C6: on submit with a command active (and the argument slots matching
the declared parameters), every argument's expansion/validation rule runs
over its raw text and its outcome lands in that slot's error string; if
any argument fails, the command is not executed — the command stays
active, the arguments are kept, and no command-level error is set; if all
arguments validate, the command executes on the expanded values —
execution failure keeps the command active with the command-level error
set to the failure's message, execution success resets the console to
idle (no active command, argument state dropped, no errors). -/
theorem claim_C6_submit {sb : StatusBar} {cmd : FKeyCommand}
    (hcmd : sb.activeCommand = some cmd)
    (hlen : sb.commandArgs.length = cmd.ArgTypes.length) :
    ((∃ p ∈ sb.commandArgs.zip cmd.ArgTypes, ∃ e, p.2.Expand p.1 = .error e) →
      sb.submitEnter.activeCommand = some cmd ∧
      sb.submitEnter.commandArgs = sb.commandArgs ∧
      sb.submitEnter.commandArgErrors =
        (sb.commandArgs.zip cmd.ArgTypes).map (fun p =>
          match p.2.Expand p.1 with | .ok _ => "" | .error e => e) ∧
      sb.submitEnter.commandErrorString = "") ∧
    ((∀ p ∈ sb.commandArgs.zip cmd.ArgTypes, ∃ c, p.2.Expand p.1 = .ok c) →
      ((sb.commandArgs.zip cmd.ArgTypes).map (fun p => p.2.Expand p.1) =
        (expandLoop (sb.commandArgs.zip cmd.ArgTypes)).1.map Except.ok) ∧
      (∀ msg,
        cmd.Do (expandLoop (sb.commandArgs.zip cmd.ArgTypes)).1 = some msg →
        sb.submitEnter.activeCommand = some cmd ∧
        sb.submitEnter.commandErrorString = msg ∧
        sb.submitEnter.commandArgs = sb.commandArgs) ∧
      (cmd.Do (expandLoop (sb.commandArgs.zip cmd.ArgTypes)).1 = none →
        sb.submitEnter.activeCommand = none ∧
        sb.submitEnter.commandArgs = [] ∧
        sb.submitEnter.commandArgErrors = [] ∧
        sb.submitEnter.commandErrorString = "")) := by
  constructor
  · rintro ⟨p, hmem, e, hpe⟩
    have hany : (expandLoop (sb.commandArgs.zip cmd.ArgTypes)).2.2 = true := by
      by_contra hfalse
      rw [Bool.not_eq_true] at hfalse
      obtain ⟨c, hc⟩ := (expandLoop_anyErr_false_iff _).mp hfalse p hmem
      rw [hpe] at hc
      cases hc
    unfold StatusBar.submitEnter
    rw [hcmd]
    dsimp only
    rw [if_pos hany]
    refine ⟨rfl, rfl, ?_, rfl⟩
    exact expandLoop_errors _
  · intro hall
    have hany : (expandLoop (sb.commandArgs.zip cmd.ArgTypes)).2.2 = false :=
      (expandLoop_anyErr_false_iff _).mpr hall
    refine ⟨expandLoop_completed _ hany, ?_, ?_⟩
    · intro msg hdo
      unfold StatusBar.submitEnter
      rw [hcmd]
      dsimp only
      rw [if_neg (by rw [hany]; exact Bool.false_ne_true)]
      rw [hdo]
      exact ⟨rfl, rfl, rfl⟩
    · intro hdo
      unfold StatusBar.submitEnter
      rw [hcmd]
      dsimp only
      rw [if_neg (by rw [hany]; exact Bool.false_ne_true)]
      rw [hdo]
      exact ⟨rfl, rfl, rfl, rfl⟩

/-- A command with a single (non-aircraft) argument whose expansion
rejects the empty string, and whose execution always succeeds. -/
def cmdOneTextArg : FKeyCommand :=
  ⟨[⟨false, fun s => if s = "" then .error "empty" else .ok s⟩],
   fun _ => none⟩

/-- A collecting state for `cmdOneTextArg` with the argument filled in. -/
def sbOneTextArg : StatusBar :=
  ⟨some cmdOneTextArg, 0, 0, ["GO"], [""], ""⟩

theorem claim_C6_submit_witness :
    (sbOneTextArg.activeCommand = some cmdOneTextArg ∧
     sbOneTextArg.commandArgs.length = cmdOneTextArg.ArgTypes.length) ∧
    (sbOneTextArg.submitEnter.activeCommand = none ∧
     sbOneTextArg.submitEnter.commandArgs = [] ∧
     sbOneTextArg.submitEnter.commandArgErrors = [] ∧
     sbOneTextArg.submitEnter.commandErrorString = "") := by
  refine ⟨⟨rfl, rfl⟩, ?_⟩
  have h := @claim_C6_submit sbOneTextArg cmdOneTextArg rfl rfl
  have hall : ∀ p ∈ sbOneTextArg.commandArgs.zip cmdOneTextArg.ArgTypes,
      ∃ c, p.2.Expand p.1 = .ok c := by
    intro p hp
    have : p = ("GO", (⟨false, fun s => if s = "" then .error "empty"
        else .ok s⟩ : CommandArg)) := by
      simpa [sbOneTextArg, cmdOneTextArg] using hp
    subst this
    exact ⟨"GO", by simp⟩
  have hdo : cmdOneTextArg.Do
      (expandLoop (sbOneTextArg.commandArgs.zip cmdOneTextArg.ArgTypes)).1
        = none := rfl
  exact (h.2 hall).2.2 hdo

/-- A mid-entry collecting state with a filled argument, a per-slot error
and a command-level error. -/
def sbMidEntry : StatusBar :=
  ⟨some cmdOneAircraftArg, 0, 2, ["AAL1"], ["bad"], "previous error"⟩

/-- C8 counterexample: Escape clears the active command and the
command-level error, but the raw argument strings and per-argument error
slots are NOT discarded — they keep their values (compare Enter-success,
which does null them out); they are only reinitialised when the next
command activates. -/
theorem claim_C8_counterexample :
    (sbMidEntry.processKeyEscape true).activeCommand = none ∧
    (sbMidEntry.processKeyEscape true).commandErrorString = "" ∧
    (sbMidEntry.processKeyEscape true).commandArgs = ["AAL1"] ∧
    (sbMidEntry.processKeyEscape true).commandArgErrors = ["bad"] ∧
    ¬(sbMidEntry.processKeyEscape true).commandArgs = ([] : List String) :=
  ⟨rfl, rfl, rfl, rfl, by simp [sbMidEntry, StatusBar.processKeyEscape]⟩

/-- C8 (amended): for every console state, the Escape branch returns the
console to Idle (clears the active command) and clears any pending
command-level error string; the raw argument strings, the per-argument
errors, the focused-slot index and the cursor are all left in place —
they become inert (nothing renders or submits them without an active
command) and are reinitialised when the next command activates. -/
theorem claim_C8_escape_clears_command (sb : StatusBar) :
    (sb.processKeyEscape true).activeCommand = none ∧
    (sb.processKeyEscape true).commandErrorString = "" ∧
    (sb.processKeyEscape true).commandArgs = sb.commandArgs ∧
    (sb.processKeyEscape true).commandArgErrors = sb.commandArgErrors ∧
    (sb.processKeyEscape true).inputFocus = sb.inputFocus ∧
    (sb.processKeyEscape true).inputCursor = sb.inputCursor :=
  ⟨rfl, rfl, rfl, rfl, rfl, rfl⟩

/-!
### Per-frame keyboard-focus routing
-/

/-- One entry of a `VisitPanes` traversal: a leaf's pane (nil-able, for
malformed trees) or an interior node's split line.  The split line is
visited as a `Pane` interface value in the source; it is never a
`*CLIPane`, its `CanTakeKeyboardFocus()` is false, and it never compares
equal to a leaf pane. -/
inductive VisitEntry where
  | paneE (p : Option Pane)
  | splitE (sl : SplitLine)
deriving DecidableEq, Repr

/-- `DisplayNode.VisitPanes`, reified as the in-order list of visited
entries: a leaf contributes its pane; an interior node contributes the
left subtree, its own split line, then the right subtree.  (On a
malformed interior node with a nil child the source would dereference a
nil receiver; such a child contributes nothing here — unreachable on
well-formed trees.) -/
def VisitPanes : DisplayNode → List VisitEntry
  | .mk p sl c0 c1 =>
    if sl.Axis = .splitAxisNone then [.paneE p]
    else
      (match c0 with | none => [] | some d0 => VisitPanes d0) ++
        [.splitE sl] ++
        (match c1 with | none => [] | some d1 => VisitPanes d1)

/-- `wmPaneIsPresent`: visit every pane, latching `found` when the
visited value equals the sought one (which may be nil — the source
compares Go interface values). -/
def wmPaneIsPresent (pane : Option Pane) (root : DisplayNode) : Bool :=
  (VisitPanes root).foldl
    (fun found e => if e = .paneE pane then true else found) false

/-- The keyboard-focus reassignment prologue of `wmDrawPanes`: clear the
focus pane if it is no longer present in the hierarchy; then, while the
focus is nil, visit all panes keeping the last `*CLIPane` seen, and if
that finds none, visit again keeping the last pane whose
`CanTakeKeyboardFocus()` is true.  (A nil leaf pane fails the `*CLIPane`
type assertion; in the second pass the source would call a method on it —
unreachable on well-formed trees.) -/
def wmDrawPanesFocus (root : DisplayNode) (focus : Option Pane) :
    Option Pane :=
  let focus1 := if wmPaneIsPresent focus root then focus else none
  if focus1 = none then
    let cli := (VisitPanes root).foldl
      (fun acc e =>
        match e with
        | .paneE (some p) => if p.isCLIPane then some p else acc
        | _ => acc) none
    match cli with
    | some p => some p
    | none =>
      (VisitPanes root).foldl
        (fun acc e =>
          match e with
          | .paneE (some p) => if p.canTakeKeyboardFocus then some p else acc
          | _ => acc) none
  else focus1

/-- The last hit of a selector on a list — the value an overwrite-fold
(`acc := f e` whenever `f e` hits) leaves behind. -/
def lastHit {α β : Type} (f : α → Option β) : List α → Option β
  | [] => none
  | e :: rest =>
    match lastHit f rest with
    | some b => some b
    | none => f e

/-- Selector for the first pass: the visited entry is a `*CLIPane`. -/
def cliSel : VisitEntry → Option Pane
  | .paneE (some p) => if p.isCLIPane then some p else none
  | _ => none

/-- Selector for the second pass: `CanTakeKeyboardFocus()` holds. -/
def focusSel : VisitEntry → Option Pane
  | .paneE (some p) => if p.canTakeKeyboardFocus then some p else none
  | _ => none

/-- Sanity: the last hit is the last element of the filtered list. -/
theorem lastHit_eq_getLast {α β : Type} (f : α → Option β) (l : List α) :
    lastHit f l = (l.filterMap f).getLast? := by
  induction l with
  | nil => simp [lastHit]
  | cons e rest ih =>
    unfold lastHit
    rw [List.filterMap_cons]
    cases hfe : f e with
    | none =>
      rw [ih]
      cases (rest.filterMap f).getLast? <;> simp
    | some b =>
      rw [ih]
      cases hl : rest.filterMap f with
      | nil => simp
      | cons x xs =>
        rw [List.getLast?_cons_cons]
        cases hg : (x :: xs).getLast? with
        | none => simp [List.getLast?] at hg
        | some y => simp [List.getLast?_cons_cons, hg]

theorem cliFold_eq (l : List VisitEntry) (init : Option Pane) :
    l.foldl (fun acc e =>
      match e with
      | .paneE (some p) => if p.isCLIPane then some p else acc
      | _ => acc) init =
      match lastHit cliSel l with
      | some p => some p
      | none => init := by
  induction l generalizing init with
  | nil => simp [lastHit]
  | cons e rest ih =>
    rw [List.foldl_cons, ih]
    cases hl : lastHit cliSel rest with
    | some b =>
      have h1 : lastHit cliSel (e :: rest) = some b := by
        conv_lhs => unfold lastHit
        rw [hl]
      rw [h1]
    | none =>
      have h1 : lastHit cliSel (e :: rest) = cliSel e := by
        conv_lhs => unfold lastHit
        rw [hl]
      rw [h1]
      cases e with
      | splitE sl => simp [cliSel]
      | paneE op =>
        cases op with
        | none => simp [cliSel]
        | some p =>
          by_cases hp : p.isCLIPane <;> simp [cliSel, hp]

theorem focusFold_eq (l : List VisitEntry) (init : Option Pane) :
    l.foldl (fun acc e =>
      match e with
      | .paneE (some p) => if p.canTakeKeyboardFocus then some p else acc
      | _ => acc) init =
      match lastHit focusSel l with
      | some p => some p
      | none => init := by
  induction l generalizing init with
  | nil => simp [lastHit]
  | cons e rest ih =>
    rw [List.foldl_cons, ih]
    cases hl : lastHit focusSel rest with
    | some b =>
      have h1 : lastHit focusSel (e :: rest) = some b := by
        conv_lhs => unfold lastHit
        rw [hl]
      rw [h1]
    | none =>
      have h1 : lastHit focusSel (e :: rest) = focusSel e := by
        conv_lhs => unfold lastHit
        rw [hl]
      rw [h1]
      cases e with
      | splitE sl => simp [focusSel]
      | paneE op =>
        cases op with
        | none => simp [focusSel]
        | some p =>
          by_cases hp : p.canTakeKeyboardFocus <;> simp [focusSel, hp]

/-- Modelled from the spec's words, for comparison with the code: "the
first region in traversal order satisfying the preferred-default
predicate (a console/text-input-like region)". -/
def specFirstPreferredPane (root : DisplayNode) : Option Pane :=
  ((VisitPanes root).filterMap cliSel).head?

/-- A two-pane hierarchy whose leaves are both CLI panes: pane 0 on the
left (visited first), pane 1 on the right (visited last). -/
def rootTwoCLIs : DisplayNode :=
  .mk none ⟨1/2, .splitAxisX⟩ (some (leafNode ⟨0, true, true⟩))
    (some (leafNode ⟨1, true, true⟩))

/-- C4 counterexample: with a nil focus and two CLI panes in the tree,
the reassignment loops latch the LAST matching pane they visit, so focus
lands on pane 1 — not on pane 0, the first preferred region in traversal
order, as the claim states. -/
theorem claim_C4_counterexample :
    specFirstPreferredPane rootTwoCLIs = some ⟨0, true, true⟩ ∧
    wmDrawPanesFocus rootTwoCLIs none = some ⟨1, true, true⟩ ∧
    ¬wmDrawPanesFocus rootTwoCLIs none = some ⟨0, true, true⟩ := by
  have hv : VisitPanes rootTwoCLIs =
      [.paneE (some ⟨0, true, true⟩), .splitE ⟨1/2, .splitAxisX⟩,
        .paneE (some ⟨1, true, true⟩)] := by
    unfold rootTwoCLIs
    conv_lhs => unfold VisitPanes
    simp [leafNode, VisitPanes]
  refine ⟨?_, ?_, ?_⟩
  · unfold specFirstPreferredPane
    rw [hv]
    simp [cliSel]
  · unfold wmDrawPanesFocus wmPaneIsPresent
    rw [hv]
    simp
  · unfold wmDrawPanesFocus wmPaneIsPresent
    rw [hv]
    simp

/-- C4 (amended): whenever the keyboard-focus pane is nil at the start of
the frame — or the focused pane is no longer present in the hierarchy, in
which case it is first cleared — the routing pass assigns focus to the
LAST pane in traversal order that is a `*CLIPane` if any exists,
otherwise the LAST pane in traversal order whose `CanTakeKeyboardFocus()`
is true, otherwise leaves focus nil. -/
theorem claim_C4_focus_reassign {root : DisplayNode} {focus : Option Pane}
    (h : focus = none ∨ wmPaneIsPresent focus root = false) :
    wmDrawPanesFocus root focus =
      match lastHit cliSel (VisitPanes root) with
      | some p => some p
      | none => lastHit focusSel (VisitPanes root) := by
  have hfocus1 : (if wmPaneIsPresent focus root then focus else none)
      = none := by
    cases h with
    | inl h0 => subst h0; cases wmPaneIsPresent none root <;> simp
    | inr h1 => rw [h1]; simp
  unfold wmDrawPanesFocus
  dsimp only
  rw [hfocus1]
  rw [if_pos rfl]
  rw [cliFold_eq, focusFold_eq]
  cases hcli : lastHit cliSel (VisitPanes root) with
  | some p => rfl
  | none => cases lastHit focusSel (VisitPanes root) <;> rfl

theorem claim_C4_focus_reassign_witness :
    ((none : Option Pane) = none ∨
      wmPaneIsPresent none rootTwoCLIs = false) ∧
    wmDrawPanesFocus rootTwoCLIs none =
      match lastHit cliSel (VisitPanes rootTwoCLIs) with
      | some p => some p
      | none => lastHit focusSel (VisitPanes rootTwoCLIs) :=
  ⟨Or.inl rfl, claim_C4_focus_reassign (Or.inl rfl)⟩

/-- The window manager's keyboard-focus state: `wm.keyboardFocusPane` and
`wm.keyboardFocusStack`. -/
structure WMFocus where
  keyboardFocusPane : Option Pane
  keyboardFocusStack : List Pane
deriving DecidableEq, Repr

/-- `wmTakeKeyboardFocus` (wm.go): a no-op when the pane already holds
focus; otherwise, when transient and some pane holds focus, push it onto
the hand-off stack, and when not transient, discard the stack; finally
take focus. -/
def wmTakeKeyboardFocus (pane : Option Pane) (isTransient : Bool)
    (wm : WMFocus) : WMFocus :=
  if wm.keyboardFocusPane = pane then wm
  else
    let stack1 :=
      match isTransient, wm.keyboardFocusPane with
      | true, some cur => wm.keyboardFocusStack ++ [cur]
      | _, _ => wm.keyboardFocusStack
    let stack2 := if isTransient then stack1 else []
    { keyboardFocusPane := pane, keyboardFocusStack := stack2 }

/-- C10: calling `wmTakeKeyboardFocus` for the pane that already holds
keyboard focus leaves the entire focus state unchanged — the focus pane
stays the same and the hand-off stack is neither pushed onto (even when
transient) nor discarded (even when not transient). -/
theorem claim_C10_takeFocus_self_noop {wm : WMFocus} {p : Pane}
    (isTransient : Bool) (h : wm.keyboardFocusPane = some p) :
    wmTakeKeyboardFocus (some p) isTransient wm = wm := by
  unfold wmTakeKeyboardFocus
  rw [if_pos h]

theorem claim_C10_takeFocus_self_noop_witness :
    (WMFocus.mk (some ⟨0, false, false⟩)
        [⟨1, false, false⟩]).keyboardFocusPane = some ⟨0, false, false⟩ ∧
    wmTakeKeyboardFocus (some ⟨0, false, false⟩) true
        (WMFocus.mk (some ⟨0, false, false⟩) [⟨1, false, false⟩]) =
      WMFocus.mk (some ⟨0, false, false⟩) [⟨1, false, false⟩] ∧
    wmTakeKeyboardFocus (some ⟨0, false, false⟩) false
        (WMFocus.mk (some ⟨0, false, false⟩) [⟨1, false, false⟩]) =
      WMFocus.mk (some ⟨0, false, false⟩) [⟨1, false, false⟩] :=
  ⟨rfl, claim_C10_takeFocus_self_noop true rfl,
    claim_C10_takeFocus_self_noop false rfl⟩

end Vice
